import Mathlib

/-!
Verification of the ECBU decision-support repository (algo_ecbu.py,
kpis_ecbu.py, alertes.py, anonymiser_donnees.py) against its
natural-language specification.

The Python code is shallowly embedded: pandas rows become structures of
optional fields, DataFrames become lists, Python ints become `Int`/`Nat`,
and Python floats become exact `ℚ` or `ℝ` arithmetic (IEEE rounding is
abstracted away; `round(x, n)` is modelled as exact round-half-to-even).
Each definition mirrors one Python function and is named after it.
-/

/-! ### String helpers

Python's `str.lower()` lowercases every Unicode character.  The only
non-ASCII letter occurring in this code base's vocabulary ("stérile",
"polymorphe", "cutanée", "NÉGATIF", "REJET", "POSITIF") is the accented
E; `minusculePy` therefore maps ASCII A–Z and 'É' (the only uppercase
accented letter reachable from those keywords) to lowercase and leaves
every other character unchanged. -/
def minusculeChar (c : Char) : Char :=
  if 'A' ≤ c ∧ c ≤ 'Z' then Char.ofNat (c.toNat + 32)
  else if c = 'É' then 'é'
  else c

def minusculePy (s : String) : String :=
  ⟨s.data.map minusculeChar⟩

/-- Boolean test that the first character list is a prefix of the second
(used to build the substring test that models Python's `in` operator). -/
def estDebut : List Char → List Char → Bool
  | [], _ => true
  | _ :: _, [] => false
  | a :: as, b :: bs => a = b && estDebut as bs

/-- Boolean test that `p` occurs as a contiguous sublist of `s`:
Python's `p in s` on strings. -/
def estInfixe (p : List Char) : List Char → Bool
  | [] => estDebut p []
  | b :: reste => estDebut p (b :: reste) || estInfixe p reste

/-- Python `sub in s` (substring containment). -/
def contientSous (s sub : String) : Bool :=
  estInfixe sub.data s.data

/-! ### algo_ecbu.py — the decision rule engine

`_decision(row)` reads nine fields with `row.get(champ, défaut)` (defaults:
`germe_nom → ""`, `bacteriurie_num → 0`, `leucocyturie → 0`,
`nb_especes → 1`, the four flags and `code_genre → 0`) and runs an
ordered cascade of eleven rules R0–R10, returning the label of the first
rule whose condition holds (R10 is a catch-all).  A pandas row is
modelled as a structure of optional fields; `row.get` is `Option.getD`. -/

structure Ligne where
  germe_nom : Option String
  bacteriurie_num : Option Int
  leucocyturie : Option Int
  nb_especes : Option Int
  est_sonde : Option Int
  est_immunodeprime : Option Int
  est_enceinte : Option Int
  antibio_en_cours : Option Int
  code_genre : Option Int
deriving DecidableEq

/-- Local variables of `_decision` after the `row.get` extractions:
`germe` is the lowercased organism name, `germeRaw` the raw one (rule R7
re-reads `row.get("germe_nom", "")` without lowercasing). -/
structure Vals where
  germe : String
  germeRaw : String
  bact : Int
  leuco : Int
  nbEsp : Int
  sonde : Int
  immuno : Int
  encein : Int
  atb : Int
  genre : Int
deriving DecidableEq

def extraire (r : Ligne) : Vals :=
  { germe := minusculePy (r.germe_nom.getD "")
    germeRaw := r.germe_nom.getD ""
    bact := r.bacteriurie_num.getD 0
    leuco := r.leucocyturie.getD 0
    nbEsp := r.nb_especes.getD 1
    sonde := r.est_sonde.getD 0
    immuno := r.est_immunodeprime.getD 0
    encein := r.est_enceinte.getD 0
    atb := r.antibio_en_cours.getD 0
    genre := r.code_genre.getD 0 }

/-- Condition of rule Rᵢ (i = 0..10) of `_decision`, transcribed from the
successive `if` tests; R10 is the final unconditional `return`. -/
def condR (i : Fin 11) (v : Vals) : Bool :=
  match i with
  | 0 => contientSous v.germe "stérile" && decide (v.leuco < 10000) && (v.atb == 0)
  | 1 => decide (3 ≤ v.nbEsp) || contientSous v.germe "polymorphe" ||
         contientSous v.germe "cutanée"
  | 2 => (v.sonde == 1) && decide (0 < v.bact)
  | 3 => (v.immuno == 1) && decide (0 < v.bact)
  | 4 => (v.encein == 1) && decide (1000 ≤ v.bact)
  | 5 => (v.atb == 1) && decide (10000 ≤ v.leuco) &&
         (contientSous v.germe "stérile" || (v.bact == 0))
  | 6 => decide (v.leuco < 10000) && (v.immuno == 0) && (v.sonde == 0) &&
         (v.encein == 0)
  | 7 => ((v.germeRaw == "Escherichia coli") ||
          (v.germeRaw == "Staphylococcus saprophyticus")) && decide (1000 ≤ v.bact)
  | 8 => (v.genre == 1) && decide (1000 ≤ v.bact)
  | 9 => (v.genre == 2) && decide (10000 ≤ v.bact)
  | 10 => true

/-- Decision label returned by rule Rᵢ. -/
def etiquetteR (i : Fin 11) : String :=
  match i with
  | 0 => "NÉGATIF : Stérile"
  | 1 => "REJET : Contamination probable"
  | 2 => "POSITIF : Matériel (pas de seuil)"
  | 3 => "POSITIF : Immunodéprimé (exception leucocyturie)"
  | 4 => "POSITIF : Grossesse (dépistage colonisation)"
  | 5 => "ALERTE : Infection décapitée possible (ATB + leucocyturie)"
  | 6 => "NÉGATIF : Leucocyturie non significative"
  | 7 => "POSITIF : Germe prioritaire (seuil 10^3)"
  | 8 => "POSITIF : Homme (seuil 10^3)"
  | 9 => "POSITIF : Femme (seuil 10^4)"
  | 10 => "NÉGATIF : Sous seuil / Colonisation"

/-- Body of `_decision` on the extracted values: the `if` cascade of
algo_ecbu.py lines 34-76, first matching rule wins. -/
def decisionVals (v : Vals) : String :=
  if condR 0 v then etiquetteR 0
  else if condR 1 v then etiquetteR 1
  else if condR 2 v then etiquetteR 2
  else if condR 3 v then etiquetteR 3
  else if condR 4 v then etiquetteR 4
  else if condR 5 v then etiquetteR 5
  else if condR 6 v then etiquetteR 6
  else if condR 7 v then etiquetteR 7
  else if condR 8 v then etiquetteR 8
  else if condR 9 v then etiquetteR 9
  else etiquetteR 10

/-- Python `_decision(row)` of algo_ecbu.py. -/
def _decision (r : Ligne) : String :=
  decisionVals (extraire r)

/-- Rule Rᵢ's predicate evaluated on a record (condition on the extracted
fields), used to state the precedence property. -/
def regleActive (r : Ligne) (i : Fin 11) : Bool :=
  condR i (extraire r)

/-- Concrete record of the specification's scenario: Escherichia coli,
bacterial count 1000, leukocyte count 10000, one species, all flags 0,
female. -/
def ligneScenario : Ligne :=
  { germe_nom := some "Escherichia coli"
    bacteriurie_num := some 1000
    leucocyturie := some 10000
    nb_especes := some 1
    est_sonde := some 0
    est_immunodeprime := some 0
    est_enceinte := some 0
    antibio_en_cours := some 0
    code_genre := some 2 }

/-- Adversarial record matching both R2 (indwelling device) and R8 (male
threshold) while matching no earlier rule: the cascade picks R2. -/
def ligneSondeHomme : Ligne :=
  { germe_nom := some "Klebsiella pneumoniae"
    bacteriurie_num := some 2000
    leucocyturie := some 20000
    nb_especes := some 1
    est_sonde := some 1
    est_immunodeprime := some 0
    est_enceinte := some 0
    antibio_en_cours := some 0
    code_genre := some 1 }

/-- Record with every optional field replaced by the safe negatives the
spec documents: missing counts become 0, missing flags become 0 (false),
a missing organism name becomes the empty string. -/
def remplirDefauts (r : Ligne) : Ligne :=
  { germe_nom := some (r.germe_nom.getD "")
    bacteriurie_num := some (r.bacteriurie_num.getD 0)
    leucocyturie := some (r.leucocyturie.getD 0)
    nb_especes := some (r.nb_especes.getD 0)
    est_sonde := some (r.est_sonde.getD 0)
    est_immunodeprime := some (r.est_immunodeprime.getD 0)
    est_enceinte := some (r.est_enceinte.getD 0)
    antibio_en_cours := some (r.antibio_en_cours.getD 0)
    code_genre := some (r.code_genre.getD 0) }

/-- Scenario record with the lowercase spelling variant of the priority
organism, at the priority threshold. -/
def ligneMinuscule : Ligne :=
  { ligneScenario with germe_nom := some "escherichia coli" }

/-- Record showing the sterile rule matches case-insensitively and on a
substring of the organism name. -/
def ligneSterileMaj : Ligne :=
  { germe_nom := some "CULTURE STÉRILE"
    bacteriurie_num := some 0
    leucocyturie := some 0
    nb_especes := some 1
    est_sonde := some 0
    est_immunodeprime := some 0
    est_enceinte := some 0
    antibio_en_cours := some 0
    code_genre := some 2 }

/-! ### kpis_ecbu.py and alertes.py — population statistics and alerting

Floats are modelled as exact rationals; Python's `round(x, 1)` (used for
the per-service rates) is round-half-to-even, modelled exactly. -/

/-- Python `round` on integers (`round-half-to-even` / banker's rounding),
over exact rationals. -/
def rondePaireQ (x : ℚ) : ℤ :=
  if Int.fract x = 1/2 then (if Even ⌊x⌋ then ⌊x⌋ else ⌊x⌋ + 1) else round x

/-- Python `round(x, 1)`. -/
def arrondi1Q (x : ℚ) : ℚ :=
  (rondePaireQ (10 * x) : ℚ) / 10

/-- Decision-label test `s.str.contains("NÉGATIF|REJET", case=False)`:
the lowercased label contains "négatif" or "rejet". -/
def estNonPertinente (s : String) : Bool :=
  contientSous (minusculePy s) "négatif" || contientSous (minusculePy s) "rejet"

/-- Decision-label test `s.str.contains("POSITIF", case=False)`. -/
def estPositive (s : String) : Bool :=
  contientSous (minusculePy s) "positif"

/-- Input row of `stats_par_service`: the columns it reads.  (`Service`
NaN values, dropped by `dropna()` in the source, are not modelled: every
service is a string.) -/
structure LigneKpi where
  decision : String
  service : String
  symptomatique : String
deriving DecidableEq

/-- Output row of `stats_par_service`. -/
structure LigneService where
  service : String
  total : ℕ
  positifs : ℕ
  nonPertinents : ℕ
  tauxNP : ℚ
  asymptomatiques : ℕ
  pctAsymptomatiques : ℚ
deriving DecidableEq

/-- Strict lexicographic order on character lists, comparing code points:
the order Python's `sorted` uses on strings. -/
def lexLt : List Char → List Char → Bool
  | [], [] => false
  | [], _ :: _ => true
  | _ :: _, [] => false
  | a :: as, b :: bs => if a < b then true else if b < a then false else lexLt as bs

/-- Python `a < b` on strings. -/
def chaineLt (a b : String) : Bool :=
  lexLt a.data b.data

/-- Python `a <= b` on strings (total order: not `b < a`). -/
def chaineLe (a b : String) : Bool :=
  !(lexLt b.data a.data)

/-- Python `sorted(df["Service"].unique())`: the distinct service names in
ascending order. -/
def servicesTries (dfs : List LigneKpi) : List String :=
  List.insertionSort (fun a b => chaineLe a b = true) (dfs.map (·.service)).dedup

/-- One row of the `stats_par_service` loop body for service `svc`. -/
def ligneService (dfs : List LigneKpi) (svc : String) : LigneService :=
  let sub := dfs.filter (fun r => r.service == svc)
  let n := sub.length
  let nNP := sub.countP (fun r => estNonPertinente r.decision)
  let nPos := sub.countP (fun r => estPositive r.decision)
  let nAsym := sub.countP (fun r => r.symptomatique == "Non")
  { service := svc
    total := n
    positifs := nPos
    nonPertinents := nNP
    tauxNP := if 0 < n then arrondi1Q ((nNP : ℚ) / (n : ℚ) * 100) else 0
    asymptomatiques := nAsym
    pctAsymptomatiques := if 0 < n then arrondi1Q ((nAsym : ℚ) / (n : ℚ) * 100) else 0 }

/-- Python `stats_par_service(df)`.  The source builds one row per
distinct service (in ascending service order) and runs
`DataFrame.sort_values("Taux NP (%)", ascending=False)`; pandas
implements a descending sort as an ascending argsort whose permutation
is then reversed (`nargsort`: `argsort(kind="quicksort")` then
`indexer[::-1]`).  Numpy's quicksort is unstable in general and only
degenerates to the stable insertion sort below its 16-element cutoff,
so its tie order for 16+ rows is unspecified; the model uses a stable
ascending insertion sort then `reverse`, which agrees with the program
exactly below the cutoff (in particular on every concrete table used
here) and, above it, agrees on everything except the relative order of
rate-tied rows.  The universal theorem about this function therefore
only states tie-order-independent properties (the row multiset and the
descending rate order), which hold of the program for any argsort. -/
def stats_par_service (dfs : List LigneKpi) : List LigneService :=
  (List.insertionSort (fun a b => a.tauxNP ≤ b.tauxNP)
    ((servicesTries dfs).map (ligneService dfs))).reverse

/-! ### kpis_ecbu.py — `taux_non_pertinence` and the Wilson interval

`taux_non_pertinence` computes floats; they are modelled as exact reals.
`statsmodels.stats.proportion.proportion_confint(count, nobs, alpha,
method="wilson")` computes `crit = norm.isf(alpha/2)` (the standard
normal quantile, a positive constant, ≈1.96 for alpha = 0.05) and the
interval `center ± dist` with `denom = 1 + crit²/nobs`,
`center = (q + crit²/(2 nobs))/denom`,
`dist = crit·sqrt(q(1−q)/nobs + crit²/(4 nobs²))/denom`; the quantile is
modelled as a parameter `z` (the results below hold for every `z ≥ 0`). -/

/-- Python `round` to an integer (round-half-to-even), over exact reals. -/
noncomputable def rondePaireR (x : ℝ) : ℤ :=
  if Int.fract x = 1/2 then (if Even ⌊x⌋ then ⌊x⌋ else ⌊x⌋ + 1) else round x

/-- Python `round(x, 2)`. -/
noncomputable def arrondi2R (x : ℝ) : ℝ :=
  (rondePaireR (100 * x) : ℝ) / 100

/-- The Wilson interval of statsmodels' `proportion_confint` with
critical value `z`, for `count` successes out of `nobs`. -/
noncomputable def proportion_confint_wilson (z : ℝ) (count nobs : ℕ) : ℝ × ℝ :=
  let n : ℝ := nobs
  let q : ℝ := count / n
  let denom : ℝ := 1 + z^2 / n
  let center : ℝ := (q + z^2 / (2*n)) / denom
  let dist : ℝ := z * Real.sqrt (q * (1 - q) / n + z^2 / (4 * n^2)) / denom
  (center - dist, center + dist)

/-- Result dictionary of `taux_non_pertinence`. -/
structure ResumeNP where
  nb_np : ℕ
  total : ℕ
  taux : ℝ
  ci_low : ℝ
  ci_high : ℝ

/-- Python `taux_non_pertinence(df, alpha)` of kpis_ecbu.py, with the
normal quantile `norm.isf(alpha/2)` abstracted as `z`: count the labels
containing NÉGATIF or REJET (case-insensitively), return the rate as a
percentage and the Wilson bounds as percentages, all rounded to two
decimals; an empty population short-circuits to the all-zero summary. -/
noncomputable def taux_non_pertinence (z : ℝ) (decisions : List String) : ResumeNP :=
  let total := decisions.length
  if total = 0 then ⟨0, 0, 0, 0, 0⟩
  else
    let nb := decisions.countP estNonPertinente
    let lohi := proportion_confint_wilson z nb total
    { nb_np := nb
      total := total
      taux := arrondi2R ((nb : ℝ) / (total : ℝ) * 100)
      ci_low := arrondi2R (lohi.1 * 100)
      ci_high := arrondi2R (lohi.2 * 100) }

/-! ### anonymiser_donnees.py — the k-anonymity pipeline

A pandas DataFrame is modelled as a column-name list plus rows of cells
(each row aligned with the columns); a cell is a string or an integer
(the two dtypes this pipeline touches: the group-size counts are
integers, everything else it reads is text).  NaN cells and non-ISO
date strings are outside the model (`pd.to_datetime` is modelled for
`yyyy-mm-dd...` strings, anything else becomes "NaT" as
`errors="coerce"` does). -/

inductive Cellule where
  | s : String → Cellule
  | n : Int → Cellule
deriving DecidableEq

structure DF where
  cols : List String
  rows : List (List Cellule)
deriving DecidableEq

/-- Cell of row `r` in column `c` (`row[c]` for a row aligned with
`cols`). -/
def cellule (cols : List String) (r : List Cellule) (c : String) : Cellule :=
  match (cols.zip r).find? (fun p => p.1 == c) with
  | some p => p.2
  | none => Cellule.s ""

/-- Deny-list dropped by `supprimer_colonnes_identifiantes`. -/
def colonnesASupprimer : List String :=
  ["ID Anonyme", "Date Naissance", "IPP", "Adresse", "Nom", "Prenom",
   "Date de naissance"]

/-- Deny-list checked by `verifier_anonymisation` (same seven names). -/
def colonnesInterdites : List String :=
  ["ID Anonyme", "IPP", "Date Naissance", "Date de naissance", "Nom",
   "Prenom", "Adresse"]

/-- Candidate aggregation axes of `anonymiser` step 4. -/
def axesAgregation : List String :=
  ["Service", "Tranche Age", "Sexe", "Décision Algorithme", "Bactérie",
   "Mois", "Symptomatique", "Mode Prélèvement"]

/-- Python `df.drop(columns=[c for c in cs if c in df.columns])`. -/
def supprimerColonnes (df : DF) (cs : List String) : DF :=
  { cols := df.cols.filter (fun c => decide (c ∉ cs))
    rows := df.rows.map (fun r =>
      ((df.cols.zip r).filter (fun p => decide (p.1 ∉ cs))).map Prod.snd) }

/-- Python `age_vers_tranche`: `pd.cut(age, bins=[0,17,44,64,74,200],
labels=[...], right=True)` then `astype(str)`.  With `right=True` and no
`include_lowest`, a value falls in bin `i` iff `bins[i] < x ≤
bins[i+1]`; values outside every bin (in particular age 0 and ages above
200) become NaN, which `astype(str)` renders as "nan". -/
def age_vers_tranche (age : Int) : String :=
  if 0 < age ∧ age ≤ 17 then "0-17"
  else if 17 < age ∧ age ≤ 44 then "18-44"
  else if 44 < age ∧ age ≤ 64 then "45-64"
  else if 64 < age ∧ age ≤ 74 then "65-74"
  else if 74 < age ∧ age ≤ 200 then "75+"
  else "nan"

def trancheCellule : Cellule → Cellule
  | Cellule.n a => Cellule.s (age_vers_tranche a)
  | Cellule.s _ => Cellule.s "nan"

def estChiffre (c : Char) : Bool :=
  decide ('0' ≤ c) && decide (c ≤ '9')

/-- Python `date_vers_mois` on one value:
`pd.to_datetime(d, errors="coerce").to_period("M")` then `astype(str)`,
modelled for ISO `yyyy-mm-...` strings (the pipeline's date format):
keep the first seven characters, anything unparsable becomes "NaT". -/
def moisDeChaine (d : String) : String :=
  match d.data with
  | a :: b :: c :: e :: '-' :: f :: g :: _ =>
      if estChiffre a && estChiffre b && estChiffre c && estChiffre e &&
         estChiffre f && estChiffre g
      then ⟨[a, b, c, e, '-', f, g]⟩ else "NaT"
  | _ => "NaT"

def moisCellule : Cellule → Cellule
  | Cellule.s d => Cellule.s (moisDeChaine d)
  | Cellule.n _ => Cellule.s "NaT"

/-- Python `df[c] = vals`: overwrite the column in place if it exists,
otherwise append it on the right. -/
def poserColonne (df : DF) (c : String) (vals : List Cellule) : DF :=
  if c ∈ df.cols then
    { cols := df.cols
      rows := (df.rows.zip vals).map (fun rv =>
        ((df.cols.zip rv.1).map (fun p => if p.1 == c then rv.2 else p.2))) }
  else
    { cols := df.cols ++ [c]
      rows := (df.rows.zip vals).map (fun rv => rv.1 ++ [rv.2]) }

/-- Step 2 of `anonymiser`: if an `Age` column exists, add
`Tranche Age` = banded age and drop `Age`. -/
def etapeAge (df : DF) : DF :=
  if "Age" ∈ df.cols then
    supprimerColonnes
      (poserColonne df "Tranche Age"
        (df.rows.map (fun r => trancheCellule (cellule df.cols r "Age"))))
      ["Age"]
  else df

/-- Step 3 of `anonymiser`: if a `Date Prélèvement` column exists, add
`Mois` = year-month and drop the exact date. -/
def etapeMois (df : DF) : DF :=
  if "Date Prélèvement" ∈ df.cols then
    supprimerColonnes
      (poserColonne df "Mois"
        (df.rows.map (fun r => moisCellule (cellule df.cols r "Date Prélèvement"))))
      ["Date Prélèvement"]
  else df

def celluleLt : Cellule → Cellule → Bool
  | Cellule.s a, Cellule.s b => chaineLt a b
  | Cellule.n a, Cellule.n b => decide (a < b)
  | Cellule.s _, Cellule.n _ => true
  | Cellule.n _, Cellule.s _ => false

/-- Lexicographic order on group-key tuples (pandas sorts group keys
ascending; the ordering of the string/integer mix never arises in the
pipeline's homogeneous key columns). -/
def cleLt : List Cellule → List Cellule → Bool
  | [], [] => false
  | [], _ :: _ => true
  | _ :: _, [] => false
  | a :: as, b :: bs => if a = b then cleLt as bs else celluleLt a b

def cleLe (a b : List Cellule) : Bool := !(cleLt b a)

/-- Python `df.groupby(axes, dropna=False).size().reset_index()`: the
distinct key tuples in ascending key order, each with the number of rows
carrying it. -/
def agreger (df : DF) (axes : List String) : List (List Cellule × ℕ) :=
  let cles := df.rows.map (fun r => axes.map (cellule df.cols r))
  let clesTriees := List.insertionSort (fun a b => cleLe a b = true) cles.dedup
  clesTriees.map (fun k => (k, cles.countP (fun c => decide (c = k))))

/-- Python `anonymiser(df_brut)` of anonymiser_donnees.py with the
k-anonymity floor `K_ANONYMAT_MIN` as the parameter `kmin`: drop the
deny-listed columns, generalize age and date, aggregate on the available
axes (`pd.DataFrame()`, an empty no-column frame, when none exists), and
suppress every group smaller than `kmin`. -/
def anonymiser (kmin : ℕ) (dfBrut : DF) : DF :=
  let df3 := etapeMois (etapeAge (supprimerColonnes dfBrut colonnesASupprimer))
  let axes := axesAgregation.filter (fun c => decide (c ∈ df3.cols))
  if axes = [] then { cols := [], rows := [] }
  else
    { cols := axes ++ ["Nombre ECBU"]
      rows := ((agreger df3 axes).filter (fun g => decide (kmin ≤ g.2))).map
        (fun g => g.1 ++ [Cellule.n (g.2 : Int)]) }

/-- Integer value of a cell, 0 for text (the count column only ever
holds integers). -/
def valeurInt : Cellule → Int
  | Cellule.n k => k
  | Cellule.s _ => 0

/-- Python `verifier_anonymisation(df_agg)` with the floor as `kmin`:
fail if any deny-listed column survives; then `nb_min` is the minimum of
the count column if present (`min()` of an empty column is NaN, and
`NaN < k` is false in Python, so an empty table passes) and 0 if the
column is absent; fail if `nb_min < kmin`. -/
def verifier_anonymisation (kmin : ℕ) (df : DF) : Bool :=
  if (colonnesInterdites.filter (fun c => decide (c ∈ df.cols))) ≠ [] then false
  else if "Nombre ECBU" ∈ df.cols then
    match df.rows.map (fun r => valeurInt (cellule df.cols r "Nombre ECBU")) with
    | [] => true
    | c :: cs => decide ((kmin : Int) ≤ cs.foldl min c)
  else decide ((kmin : Int) ≤ 0)

/-- Five identical records in one service: the first anonymization yields
one aggregate row of count 5; re-anonymizing that output suppresses it
(its group now has size 1), so the pipeline is not idempotent. -/
def dfService5 : DF :=
  { cols := ["Service"], rows := List.replicate 5 [Cellule.s "URO"] }

/-- An aggregate table with the count column, used as the witness input
of the verifier characterization. -/
def dfAggTemoin : DF :=
  { cols := ["Service", "Nombre ECBU"], rows := [[Cellule.s "URO", Cellule.n 5]] }

/-- Two services with one non-pertinent record each: both rates are 100,
a tie. -/
def kpiEgalite : List LigneKpi :=
  [{ decision := "NÉGATIF : Stérile", service := "SVC_A", symptomatique := "Oui" },
   { decision := "NÉGATIF : Stérile", service := "SVC_B", symptomatique := "Oui" }]

/-- Breach record returned by `verifier_seuil_np` of alertes.py. -/
structure Alerte where
  service : String
  total : ℕ
  nb_np : ℕ
  taux_np : ℚ
deriving DecidableEq

/-- Python `verifier_seuil_np(df, seuil)` (default threshold 40.0): the
rows of `stats_par_service(df)` whose rate reaches the threshold,
projected onto {service, total, nb_np, taux_np}. -/
def verifier_seuil_np (dfs : List LigneKpi) (seuil : ℚ) : List Alerte :=
  ((stats_par_service dfs).filter (fun row => decide (seuil ≤ row.tauxNP))).map
    (fun row =>
      { service := row.service
        total := row.total
        nb_np := row.nonPertinents
        taux_np := row.tauxNP })

/-- Cascade lemma: if rule `i` matches and no rule before it matches, the
cascade returns rule `i`'s label. -/
theorem decisionVals_eq_of_first (v : Vals) (i : Fin 11)
    (hi : condR i v = true) (hmin : ∀ l : Fin 11, l < i → condR l v = false) :
    decisionVals v = etiquetteR i := by
  fin_cases i <;>
    simp_all [decisionVals,
      hmin 0, hmin 1, hmin 2, hmin 3, hmin 4, hmin 5, hmin 6, hmin 7,
      hmin 8, hmin 9]

/-- Distinct rules carry distinct labels. -/
theorem etiquetteR_injective : ∀ i j : Fin 11, i ≠ j → etiquetteR i ≠ etiquetteR j := by
  decide

/-- C1: `_decision` returns the label of the lowest-numbered matching rule
of the cascade R0–R10 (spec rules 1–11): if rule `i` is the lowest
matching rule and rule `j > i` also matches, the result is rule `i`'s
label and never rule `j`'s; and the concrete scenario record
(Escherichia coli, 1000 UFC/mL, 10000 leucocytes/mL, 1 species, no
flags, female) gets R7's label `POSITIF : Germe prioritaire` (spec's
PRIORITY_ORGANISM_POSITIVE, rule 8), not R10's `NÉGATIF : Sous seuil`
(BELOW_THRESHOLD_NEGATIVE, rule 11). -/
theorem regle_precedence_cascade :
    (∀ (r : Ligne) (i j : Fin 11), i < j →
      regleActive r i = true → regleActive r j = true →
      (∀ l : Fin 11, l < i → regleActive r l = false) →
      _decision r = etiquetteR i ∧ _decision r ≠ etiquetteR j) ∧
    _decision ligneScenario = "POSITIF : Germe prioritaire (seuil 10^3)" ∧
    _decision ligneScenario ≠ "NÉGATIF : Sous seuil / Colonisation" := by
  refine ⟨fun r i j hij hi _ hmin => ?_, by decide, by decide⟩
  have hd : _decision r = etiquetteR i :=
    decisionVals_eq_of_first (extraire r) i hi hmin
  exact ⟨hd, hd ▸ etiquetteR_injective i j (ne_of_lt hij)⟩

/-- C1 witness: the precedence theorem applied to a concrete record that
matches rules R2 and R8. -/
theorem regle_precedence_cascade_temoin :
    _decision ligneSondeHomme = etiquetteR 2 ∧
    _decision ligneSondeHomme ≠ etiquetteR 8 :=
  regle_precedence_cascade.1 ligneSondeHomme 2 8 (by decide) (by decide)
    (by decide) (by decide)

/-- The cascade does not distinguish `nb_especes = 1` from `0`: the field
only occurs in R1's test `nb_esp >= 3`.  (The code's `row.get` default
for a missing `nb_especes` is 1, which is therefore observationally the
same as the spec's safe default 0.) -/
theorem decisionVals_nbEsp01 (v : Vals) :
    decisionVals {v with nbEsp := 1} = decisionVals {v with nbEsp := 0} := by
  have hk : ∀ k : Fin 11,
      condR k {v with nbEsp := 1} = condR k {v with nbEsp := 0} := by
    intro k; fin_cases k <;> norm_num [condR]
  simp only [decisionVals, hk 0, hk 1, hk 2, hk 3, hk 4, hk 5, hk 6, hk 7,
    hk 8, hk 9]

/-- C4: `_decision` is total and deterministic (it is a function, so every
record yields exactly one label) and treats every record, including ones
with absent fields, as if the absent fields carried the safe negatives
(counts 0, flags false): filling the missing fields with those defaults
does not change the decision. -/
theorem decision_totale_defauts (r : Ligne) :
    (∃! lab : String, _decision r = lab) ∧
    _decision r = _decision (remplirDefauts r) := by
  refine ⟨⟨_decision r, rfl, fun y h => h.symm⟩, ?_⟩
  cases hn : r.nb_especes with
  | none =>
      have h := decisionVals_nbEsp01 (extraire r)
      simpa [_decision, extraire, remplirDefauts, hn] using h
  | some v =>
      simp [_decision, extraire, remplirDefauts, hn]

set_option maxHeartbeats 1000000 in
/-- Helper for C10: a cascade run whose raw organism name differs from the
two exact priority species names can never return R7's label. -/
theorem decisionVals_ne_prioritaire (v : Vals)
    (h1 : v.germeRaw ≠ "Escherichia coli")
    (h2 : v.germeRaw ≠ "Staphylococcus saprophyticus") :
    decisionVals v ≠ "POSITIF : Germe prioritaire (seuil 10^3)" := by
  unfold decisionVals
  split_ifs with hc0 hc1 hc2 hc3 hc4 hc5 hc6 hc7 hc8 hc9
  · decide
  · decide
  · decide
  · decide
  · decide
  · decide
  · decide
  · simp [condR, h1, h2] at hc7
  · decide
  · decide
  · decide

/-- C10: the priority-organism rule R7 compares the raw organism name
case-sensitively with the two exact species names, so no record with any
other spelling (such as all-lowercase "escherichia coli") can ever get
R7's label; the concrete lowercase variant at count 1000, female, falls
through to R10's `NÉGATIF : Sous seuil`; whereas the sterile rule R0 does
match case-insensitively on a substring of the name. -/
theorem germe_prioritaire_sensible_casse :
    (∀ r : Ligne, r.germe_nom.getD "" ≠ "Escherichia coli" →
      r.germe_nom.getD "" ≠ "Staphylococcus saprophyticus" →
      _decision r ≠ "POSITIF : Germe prioritaire (seuil 10^3)") ∧
    _decision ligneMinuscule = "NÉGATIF : Sous seuil / Colonisation" ∧
    _decision ligneSterileMaj = "NÉGATIF : Stérile" :=
  ⟨fun r h1 h2 => decisionVals_ne_prioritaire (extraire r) h1 h2,
   by decide, by decide⟩

/-- C10 witness: the non-priority theorem applied to the lowercase
variant record. -/
theorem germe_prioritaire_sensible_casse_temoin :
    _decision ligneMinuscule ≠ "POSITIF : Germe prioritaire (seuil 10^3)" :=
  germe_prioritaire_sensible_casse.1 ligneMinuscule (by decide) (by decide)

/-- C7 (corrected): `stats_par_service` yields one summary per distinct
service, ordered by non-pertinence rate descending; no tie-break is
stated — on equal rates the order is whatever reversing the argsort
permutation produces, which is not the ascending service-name order the
claim asserts (see the counterexample).  Both properties proved here
are independent of the argsort's treatment of ties, so they hold of the
program for stable and unstable sorts alike. -/
theorem stats_par_service_tri (dfs : List LigneKpi) :
    (stats_par_service dfs).Pairwise (fun a b => b.tauxNP ≤ a.tauxNP) ∧
    ((stats_par_service dfs).map (·.service)).Perm (dfs.map (·.service)).dedup := by
  constructor
  · rw [stats_par_service, List.pairwise_reverse]
    haveI : IsTotal LigneService (fun a b => a.tauxNP ≤ b.tauxNP) :=
      ⟨fun a b => le_total _ _⟩
    haveI : IsTrans LigneService (fun a b => a.tauxNP ≤ b.tauxNP) :=
      ⟨fun _ _ _ hab hbc => le_trans hab hbc⟩
    exact List.sorted_insertionSort _ _
  · rw [stats_par_service, List.map_reverse]
    have h4 : ((servicesTries dfs).map (ligneService dfs)).map (·.service)
        = servicesTries dfs := by
      simp [List.map_map]
      exact List.map_id _
    have p2 : (List.insertionSort (fun a b => a.tauxNP ≤ b.tauxNP)
        ((servicesTries dfs).map (ligneService dfs))).Perm
        ((servicesTries dfs).map (ligneService dfs)) :=
      List.perm_insertionSort _ _
    have p3 := p2.map (fun x : LigneService => x.service)
    rw [h4] at p3
    exact (List.reverse_perm _).trans (p3.trans (List.perm_insertionSort _ _))

theorem le_of_sq_le_sq' {s t : ℝ} (hs : 0 ≤ s) (h : t^2 ≤ s^2) : t ≤ s := by
  nlinarith [sq_nonneg (s - t), sq_nonneg (s + t)]

theorem floor_le_rondePaireR (x : ℝ) : ⌊x⌋ ≤ rondePaireR x := by
  unfold rondePaireR
  split_ifs with h he
  · exact le_refl _
  · omega
  · rw [round_eq]
    exact Int.floor_mono (by linarith)

theorem rondePaireR_le_floor_add_one (x : ℝ) : rondePaireR x ≤ ⌊x⌋ + 1 := by
  unfold rondePaireR
  split_ifs with h he
  · omega
  · exact le_refl _
  · rw [round_eq]
    have : ⌊x + 1/2⌋ ≤ ⌊x + 1⌋ := Int.floor_mono (by linarith)
    rw [show x + 1 = x + (1:ℤ) by norm_num, Int.floor_add_int] at this
    exact this

theorem rondePaireR_mono {x y : ℝ} (h : x ≤ y) : rondePaireR x ≤ rondePaireR y := by
  rcases lt_or_ge ⌊x⌋ ⌊y⌋ with hf | hf
  · calc rondePaireR x ≤ ⌊x⌋ + 1 := rondePaireR_le_floor_add_one x
      _ ≤ ⌊y⌋ := by omega
      _ ≤ rondePaireR y := floor_le_rondePaireR y
  · have heq : ⌊x⌋ = ⌊y⌋ := le_antisymm (Int.floor_mono h) hf
    have hfr : Int.fract x ≤ Int.fract y := by
      simp only [Int.fract, heq]
      linarith
    by_cases hfx : Int.fract x = 1/2 <;> by_cases hfy : Int.fract y = 1/2
    · unfold rondePaireR
      rw [if_pos hfx, if_pos hfy, heq]
    · have hgt : 1/2 < Int.fract y := lt_of_le_of_ne (hfx ▸ hfr) (fun e => hfy e.symm)
      have h1 : round y = ⌊y⌋ + 1 := by
        rw [round_eq]
        have hy1 : Int.fract y < 1 := Int.fract_lt_one y
        have hyf : (⌊y⌋ : ℝ) + Int.fract y = y := Int.floor_add_fract y
        have : ⌊y + 1/2⌋ = ⌊y⌋ + 1 := by
          rw [Int.floor_eq_iff]
          constructor
          · push_cast
            linarith
          · push_cast
            linarith
        exact this
      unfold rondePaireR
      rw [if_pos hfx, if_neg hfy, h1, heq]
      split_ifs <;> omega
    · have hlt : Int.fract x < 1/2 := lt_of_le_of_ne (hfy ▸ hfr) hfx
      have h1 : round x = ⌊x⌋ := by
        rw [round_eq]
        have hx0 : 0 ≤ Int.fract x := Int.fract_nonneg x
        have hxf : (⌊x⌋ : ℝ) + Int.fract x = x := Int.floor_add_fract x
        rw [Int.floor_eq_iff]
        constructor
        · linarith
        · linarith
      unfold rondePaireR
      rw [if_neg hfx, if_pos hfy, h1, heq]
      split_ifs <;> omega
    · unfold rondePaireR
      rw [if_neg hfx, if_neg hfy, round_eq, round_eq]
      exact Int.floor_mono (by linarith)

theorem arrondi2R_mono {x y : ℝ} (h : x ≤ y) : arrondi2R x ≤ arrondi2R y := by
  unfold arrondi2R
  have := rondePaireR_mono (show 100 * x ≤ 100 * y by linarith)
  have hc : ((rondePaireR (100 * x) : ℝ)) ≤ ((rondePaireR (100 * y) : ℝ)) :=
    Int.cast_le.mpr this
  linarith

theorem rondePaireR_intCast (n : ℤ) : rondePaireR ((n : ℤ) : ℝ) = n := by
  unfold rondePaireR
  rw [Int.fract_intCast]
  norm_num

theorem arrondi2R_zero : arrondi2R 0 = 0 := by
  unfold arrondi2R
  rw [show (100 : ℝ) * 0 = ((0 : ℤ) : ℝ) by norm_num, rondePaireR_intCast]
  norm_num

theorem arrondi2R_cent : arrondi2R 100 = 100 := by
  unfold arrondi2R
  rw [show (100 : ℝ) * 100 = ((10000 : ℤ) : ℝ) by norm_num, rondePaireR_intCast]
  norm_num

/-- Core Wilson-interval bounds: for every critical value `z ≥ 0` and
`count ≤ nobs`, `nobs > 0`, the interval brackets the observed
proportion and lies inside `[0, 1]`. -/
theorem wilson_encadre (z : ℝ) (count nobs : ℕ)
    (hz : 0 ≤ z) (htot : 0 < nobs) (hnb : count ≤ nobs) :
    (proportion_confint_wilson z count nobs).1 ≤ (count : ℝ) / (nobs : ℝ) ∧
    (count : ℝ) / (nobs : ℝ) ≤ (proportion_confint_wilson z count nobs).2 ∧
    0 ≤ (proportion_confint_wilson z count nobs).1 ∧
    (proportion_confint_wilson z count nobs).2 ≤ 1 := by
  have hn : (0 : ℝ) < (nobs : ℝ) := by exact_mod_cast htot
  have hq0 : (0 : ℝ) ≤ (count : ℝ) / (nobs : ℝ) := by positivity
  have hq1 : (count : ℝ) / (nobs : ℝ) ≤ 1 := by
    rw [div_le_one hn]
    exact_mod_cast hnb
  set q : ℝ := (count : ℝ) / (nobs : ℝ) with hqdef
  set n : ℝ := (nobs : ℝ) with hndef
  have h1q : 0 ≤ 1 - q := by linarith
  have hD : 0 ≤ q * (1 - q) / n + z^2 / (4 * n^2) := by
    have h1 : 0 ≤ q * (1 - q) / n := div_nonneg (mul_nonneg hq0 h1q) hn.le
    have h2 : 0 ≤ z^2 / (4 * n^2) := by positivity
    linarith
  set s : ℝ := Real.sqrt (q * (1 - q) / n + z^2 / (4 * n^2)) with hsdef
  have hs2 : s^2 = q * (1 - q) / n + z^2 / (4 * n^2) := Real.sq_sqrt hD
  have hs0 : 0 ≤ s := Real.sqrt_nonneg _
  have hden : (0 : ℝ) < 1 + z^2 / n := by positivity
  have hlohi : proportion_confint_wilson z count nobs =
      (((q + z^2 / (2*n)) / (1 + z^2 / n)) - z * s / (1 + z^2 / n),
       ((q + z^2 / (2*n)) / (1 + z^2 / n)) + z * s / (1 + z^2 / n)) := rfl
  -- s dominates both half-width comparison terms
  have hs_ge₁ : z * (2*q - 1) / (2*n) ≤ s := by
    apply le_of_sq_le_sq' hs0
    rw [hs2]
    have hid : q * (1 - q) / n + z^2 / (4 * n^2) - (z * (2*q - 1) / (2*n))^2
        = q * (1 - q) * (1/n + z^2/n^2) := by
      field_simp
      ring
    nlinarith [mul_nonneg (mul_nonneg hq0 h1q) (by positivity : (0:ℝ) ≤ 1/n + z^2/n^2)]
  have hs_ge₂ : z * (1 - 2*q) / (2*n) ≤ s := by
    apply le_of_sq_le_sq' hs0
    rw [hs2]
    have hid : q * (1 - q) / n + z^2 / (4 * n^2) - (z * (1 - 2*q) / (2*n))^2
        = q * (1 - q) * (1/n + z^2/n^2) := by
      field_simp
      ring
    nlinarith [mul_nonneg (mul_nonneg hq0 h1q) (by positivity : (0:ℝ) ≤ 1/n + z^2/n^2)]
  have hzs₁ : z^2 * (2*q - 1) / (2*n) ≤ z * s := by
    have := mul_le_mul_of_nonneg_left hs_ge₁ hz
    calc z^2 * (2*q - 1) / (2*n) = z * (z * (2*q - 1) / (2*n)) := by ring
      _ ≤ z * s := this
  have hzs₂ : z^2 * (1 - 2*q) / (2*n) ≤ z * s := by
    have := mul_le_mul_of_nonneg_left hs_ge₂ hz
    calc z^2 * (1 - 2*q) / (2*n) = z * (z * (1 - 2*q) / (2*n)) := by ring
      _ ≤ z * s := this
  refine ⟨?_, ?_, ?_, ?_⟩
  · -- lower bound ≤ q
    rw [hlohi]
    rw [div_sub_div_same, div_le_iff₀ hden]
    have hid : q * (1 + z^2/n) = q + z^2/(2*n) - z^2 * (1 - 2*q) / (2*n) := by
      field_simp
      ring
    linarith
  · -- q ≤ upper bound
    rw [hlohi]
    rw [div_add_div_same, le_div_iff₀ hden]
    have hid : q * (1 + z^2/n) = q + z^2/(2*n) + z^2 * (2*q - 1) / (2*n) := by
      field_simp
      ring
    linarith
  · -- 0 ≤ lower bound
    rw [hlohi]
    rw [div_sub_div_same]
    apply div_nonneg _ hden.le
    have hc0 : 0 ≤ q + z^2/(2*n) := by positivity
    have hzs : z * s ≤ q + z^2/(2*n) := by
      apply le_of_sq_le_sq' hc0
      have hid : (q + z^2/(2*n))^2 - (z*s)^2
          = q^2 + z^2 * q^2 / n := by
        rw [mul_pow, hs2]
        field_simp
        ring
      linarith [hid, sq_nonneg q,
        div_nonneg (mul_nonneg (sq_nonneg z) (sq_nonneg q)) hn.le]
    linarith
  · -- upper bound ≤ 1
    rw [hlohi]
    rw [div_add_div_same, div_le_one hden]
    have hc0 : 0 ≤ (1 - q) + z^2/(2*n) := by positivity
    have hzs : z * s ≤ (1 - q) + z^2/(2*n) := by
      apply le_of_sq_le_sq' hc0
      have hid : ((1 - q) + z^2/(2*n))^2 - (z*s)^2
          = (1 - q)^2 + z^2 * (1 - q)^2 / n := by
        rw [mul_pow, hs2]
        field_simp
        ring
      linarith [hid, sq_nonneg (1 - q),
        div_nonneg (mul_nonneg (sq_nonneg z) (sq_nonneg (1 - q))) hn.le]
    have hhalf : z^2/(2*n) + z^2/(2*n) = z^2/n := by ring
    linarith

/-- C9 (code bug): `age_vers_tranche` maps age 0 to "nan", not to the
"0-17" band its own docstring and labels announce (`pd.cut` with
`right=True` and no `include_lowest=True` excludes the left edge of the
first bin), and likewise maps ages above 200 to "nan" instead of "75+";
ages 1–17, 18–44, 45–64, 65–74 and 75–200 do land in the documented
bands. -/
theorem age_vers_tranche_bandes :
    age_vers_tranche 0 = "nan" ∧ age_vers_tranche 0 ≠ "0-17" ∧
    age_vers_tranche 201 = "nan" ∧ age_vers_tranche 201 ≠ "75+" ∧
    (∀ a : Int, 1 ≤ a → a ≤ 17 → age_vers_tranche a = "0-17") ∧
    (∀ a : Int, 18 ≤ a → a ≤ 44 → age_vers_tranche a = "18-44") ∧
    (∀ a : Int, 45 ≤ a → a ≤ 64 → age_vers_tranche a = "45-64") ∧
    (∀ a : Int, 65 ≤ a → a ≤ 74 → age_vers_tranche a = "65-74") ∧
    (∀ a : Int, 75 ≤ a → a ≤ 200 → age_vers_tranche a = "75+") := by
  refine ⟨by decide, by decide, by decide, by decide, ?_, ?_, ?_, ?_, ?_⟩ <;>
    (intro a h1 h2
     unfold age_vers_tranche
     split_ifs <;> first | rfl | omega)

/-- C9 witness: the band theorem applied at a concrete in-band age. -/
theorem age_vers_tranche_bandes_temoin :
    (1 : Int) ≤ 10 ∧ (10 : Int) ≤ 17 ∧ age_vers_tranche 10 = "0-17" :=
  ⟨by decide, by decide, age_vers_tranche_bandes.2.2.2.2.1 10 (by decide) (by decide)⟩

theorem cellule_cle (f : String → Cellule) :
    ∀ (axes t : List String) (u : List Cellule) (a : String), a ∈ axes →
      cellule (axes ++ t) (axes.map f ++ u) a = f a := by
  intro axes
  induction axes with
  | nil => intro t u a ha; simp at ha
  | cons d ds ih =>
      intro t u a ha
      unfold cellule
      rw [List.cons_append, List.map, List.cons_append, List.zip_cons_cons,
        List.find?]
      by_cases hda : d = a
      · subst hda
        simp
      · rw [show ((d, f d).1 == a) = false by simpa using hda]
        have ha' : a ∈ ds := by
          rcases List.mem_cons.mp ha with h | h
          · exact absurd h.symm hda
          · exact h
        have := ih t u a ha'
        unfold cellule at this
        exact this

theorem cellule_derniere (f : String → Cellule) :
    ∀ (axes : List String) (c : String) (v : Cellule), c ∉ axes →
      cellule (axes ++ [c]) (axes.map f ++ [v]) c = v := by
  intro axes
  induction axes with
  | nil => intro c v _; simp [cellule]
  | cons d ds ih =>
      intro c v hc
      unfold cellule
      rw [List.cons_append, List.map, List.cons_append, List.zip_cons_cons,
        List.find?]
      have hdc : d ≠ c := fun h => hc (h ▸ List.mem_cons_self d ds)
      rw [show ((d, f d).1 == c) = false by simpa using hdc]
      have := ih c v (fun h => hc (List.mem_cons_of_mem d h))
      unfold cellule at this
      exact this

theorem le_foldl_min (k : Int) :
    ∀ (cs : List Int) (c : Int),
      (k ≤ cs.foldl min c ↔ (k ≤ c ∧ ∀ x ∈ cs, k ≤ x)) := by
  intro cs
  induction cs with
  | nil => intro c; simp
  | cons d ds ih =>
      intro c
      rw [List.foldl_cons, ih, le_min_iff]
      constructor
      · rintro ⟨⟨h1, h2⟩, h3⟩
        refine ⟨h1, ?_⟩
        intro x hx
        rcases List.mem_cons.mp hx with rfl | hx
        · exact h2
        · exact h3 x hx
      · rintro ⟨h1, h2⟩
        exact ⟨⟨h1, h2 d (List.mem_cons_self d ds)⟩,
          fun x hx => h2 x (List.mem_cons_of_mem d hx)⟩

theorem agreger_forme (df : DF) (axes : List String) :
    ∀ g ∈ agreger df axes, ∃ r₀ ∈ df.rows, g.1 = axes.map (cellule df.cols r₀) := by
  intro g hg
  unfold agreger at hg
  obtain ⟨k, hk, hgk⟩ := List.mem_map.mp hg
  have hk' : k ∈ (df.rows.map (fun r => axes.map (cellule df.cols r))).dedup :=
    (List.perm_insertionSort _ _).mem_iff.mp hk
  have hk'' := List.mem_dedup.mp hk'
  obtain ⟨r₀, hr₀, hkr⟩ := List.mem_map.mp hk''
  exact ⟨r₀, hr₀, by rw [← hgk, ← hkr]⟩

/-- C2: the anonymizer's output never carries a deny-listed column, every
surviving aggregate row's count reaches the floor `kmin`, and the
standalone check `verifier_anonymisation` returns true on an aggregate
table (one with the count column) exactly when it is compliant — no
deny-listed column and every row's count at least `kmin`, an empty table
being vacuously compliant. -/
theorem anonymisation_postcondition :
    (∀ (kmin : ℕ) (df : DF) (c : String), c ∈ colonnesInterdites →
      c ∉ (anonymiser kmin df).cols) ∧
    (∀ (kmin : ℕ) (df : DF) (r : List Cellule), r ∈ (anonymiser kmin df).rows →
      (kmin : Int) ≤ valeurInt (cellule (anonymiser kmin df).cols r "Nombre ECBU")) ∧
    (∀ (kmin : ℕ) (dfa : DF), "Nombre ECBU" ∈ dfa.cols →
      (verifier_anonymisation kmin dfa = true ↔
        ((∀ c ∈ colonnesInterdites, c ∉ dfa.cols) ∧
         ∀ r ∈ dfa.rows, (kmin : Int) ≤ valeurInt (cellule dfa.cols r "Nombre ECBU")))) := by
  have hfacts : ∀ c ∈ colonnesInterdites,
      c ∉ axesAgregation ∧ c ≠ "Nombre ECBU" := by decide
  have hNE : "Nombre ECBU" ∉ axesAgregation := by decide
  refine ⟨?_, ?_, ?_⟩
  · intro kmin df c hc hmem
    simp only [anonymiser] at hmem
    split at hmem
    · simp at hmem
    · simp only at hmem
      rcases List.mem_append.mp hmem with h | h
      · exact (hfacts c hc).1 (List.mem_filter.mp h).1
      · exact (hfacts c hc).2 (by simpa using h)
  · intro kmin df r hmem
    simp only [anonymiser] at hmem ⊢
    by_cases hax : (axesAgregation.filter (fun c =>
        decide (c ∈ (etapeMois (etapeAge (supprimerColonnes df
          colonnesASupprimer))).cols))) = []
    · rw [if_pos hax] at hmem
      simp at hmem
    · rw [if_neg hax] at hmem ⊢
      obtain ⟨g, hgf, rfl⟩ := List.mem_map.mp hmem
      have hgk := List.mem_filter.mp hgf
      obtain ⟨r₀, _, hform⟩ :=
        agreger_forme (etapeMois (etapeAge (supprimerColonnes df colonnesASupprimer)))
          _ g hgk.1
      have hNEax : "Nombre ECBU" ∉ axesAgregation.filter (fun c =>
          decide (c ∈ (etapeMois (etapeAge (supprimerColonnes df
            colonnesASupprimer))).cols)) :=
        fun h => hNE (List.mem_filter.mp h).1
      have hk : kmin ≤ g.2 := by simpa using hgk.2
      show (kmin : Int) ≤ valeurInt (cellule _ (g.1 ++ [Cellule.n (g.2 : Int)])
        "Nombre ECBU")
      rw [hform, cellule_derniere _ _ _ _ hNEax]
      show (kmin : Int) ≤ (g.2 : Int)
      exact_mod_cast hk
  · intro kmin dfa hc
    constructor
    · intro hv
      unfold verifier_anonymisation at hv
      split_ifs at hv with h1
      push_neg at h1
      refine ⟨fun c hcc hmem => ?_, ?_⟩
      · have : c ∈ colonnesInterdites.filter (fun c => decide (c ∈ dfa.cols)) :=
          List.mem_filter.mpr ⟨hcc, by simpa using hmem⟩
        rw [h1] at this
        simp at this
      · intro r hr
        rcases hrows : dfa.rows.map
            (fun r => valeurInt (cellule dfa.cols r "Nombre ECBU")) with _ | ⟨c0, cs⟩
        · rw [List.map_eq_nil_iff] at hrows
          rw [hrows] at hr
          simp at hr
        · rw [hrows] at hv
          have := (le_foldl_min (kmin : Int) cs c0).mp (by simpa using hv)
          have hval : valeurInt (cellule dfa.cols r "Nombre ECBU") ∈
              dfa.rows.map (fun r => valeurInt (cellule dfa.cols r "Nombre ECBU")) :=
            List.mem_map.mpr ⟨r, hr, rfl⟩
          rw [hrows] at hval
          rcases List.mem_cons.mp hval with he | he
          · rw [he]; exact this.1
          · exact this.2 _ he
    · rintro ⟨hforb, hcounts⟩
      unfold verifier_anonymisation
      have h1 : colonnesInterdites.filter (fun c => decide (c ∈ dfa.cols)) = [] :=
        List.filter_eq_nil_iff.mpr (fun c hcc => by simpa using hforb c hcc)
      rw [if_neg (by simpa using h1), if_pos hc]
      rcases hrows : dfa.rows.map
          (fun r => valeurInt (cellule dfa.cols r "Nombre ECBU")) with _ | ⟨c0, cs⟩
      · rfl
      · have hall : ∀ x ∈ c0 :: cs, (kmin : Int) ≤ x := by
          rw [← hrows]
          intro x hx
          obtain ⟨r, hr, rfl⟩ := List.mem_map.mp hx
          exact hcounts r hr
        simp only [decide_eq_true_eq]
        exact (le_foldl_min (kmin : Int) cs c0).mpr
          ⟨hall c0 (List.mem_cons_self c0 cs),
           fun x hx => hall x (List.mem_cons_of_mem c0 hx)⟩

theorem countP_cle_un {l : List (List Cellule)} (hnd : l.Nodup) {k : List Cellule}
    (hk : k ∈ l) : l.countP (fun c => decide (c = k)) = 1 := by
  induction l with
  | nil => simp at hk
  | cons a as ih =>
      rw [List.countP_cons]
      rcases List.mem_cons.mp hk with rfl | hk'
      · have hz : as.countP (fun c => decide (c = k)) = 0 := by
          apply List.countP_eq_zero.mpr
          intro c hc
          simp only [decide_eq_true_eq]
          rintro rfl
          exact (List.nodup_cons.mp hnd).1 hc
        simp [hz]
      · have hne : a ≠ k := fun e => (List.nodup_cons.mp hnd).1 (e ▸ hk')
        rw [ih (List.nodup_cons.mp hnd).2 hk']
        simp [hne]

theorem supprimerColonnes_id (df : DF) (cs : List String)
    (h : ∀ c ∈ df.cols, c ∉ cs)
    (hrows : ∀ r ∈ df.rows, r.length = df.cols.length) :
    supprimerColonnes df cs = df := by
  unfold supprimerColonnes
  have hcols : df.cols.filter (fun c => decide (c ∉ cs)) = df.cols :=
    List.filter_eq_self.mpr (fun c hc => by simpa using h c hc)
  have hrows' : df.rows.map (fun r =>
      ((df.cols.zip r).filter (fun p => decide (p.1 ∉ cs))).map Prod.snd) = df.rows := by
    have hpt : ∀ r ∈ df.rows,
        ((df.cols.zip r).filter (fun p => decide (p.1 ∉ cs))).map Prod.snd = r := by
      intro r hr
      have hfilter : (df.cols.zip r).filter (fun p => decide (p.1 ∉ cs))
          = df.cols.zip r := by
        apply List.filter_eq_self.mpr
        intro p hp
        have hp1 : p.1 ∈ df.cols := (List.of_mem_zip (by rwa [show (p.1, p.2) = p from rfl])).1
        simpa using h p.1 hp1
      rw [hfilter, List.map_snd_zip]
      rw [hrows r hr]
    rw [List.map_congr_left hpt]
    exact List.map_id' df.rows
  rw [hcols, hrows']

theorem etapeAge_id (df : DF) (h : ("Age" : String) ∉ df.cols) : etapeAge df = df := by
  unfold etapeAge
  rw [if_neg h]

theorem etapeMois_id (df : DF) (h : ("Date Prélèvement" : String) ∉ df.cols) :
    etapeMois df = df := by
  unfold etapeMois
  rw [if_neg h]

/-- C3 (amended): anonymization is not idempotent.  Re-applying
`anonymiser` to its own output counts the rows of the aggregate table
(`groupby(...).size()`), and each surviving group key occurs exactly
once there, so with `kmin ≥ 2` every group of the second run has size
1 < kmin and is suppressed: the second application always returns an
empty table, which is a no-op only when the first output was already
empty. -/
theorem anonymiser_deux_fois_vide (kmin : ℕ) (df : DF) (hk : 2 ≤ kmin) :
    (anonymiser kmin (anonymiser kmin df)).rows = [] := by
  by_cases hax : (axesAgregation.filter (fun c =>
      decide (c ∈ (etapeMois (etapeAge (supprimerColonnes df
        colonnesASupprimer))).cols))) = []
  · have hout : anonymiser kmin df = ⟨[], []⟩ := by
      simp only [anonymiser]
      rw [if_pos hax]
    rw [hout]
    rfl
  · set df3 := etapeMois (etapeAge (supprimerColonnes df colonnesASupprimer))
      with hdf3
    set axes := axesAgregation.filter (fun c => decide (c ∈ df3.cols)) with haxes
    set gardes := (agreger df3 axes).filter (fun g => decide (kmin ≤ g.2))
      with hgardes
    have hout : anonymiser kmin df =
        ⟨axes ++ ["Nombre ECBU"],
         gardes.map (fun g => g.1 ++ [Cellule.n (g.2 : Int)])⟩ := by
      simp only [anonymiser]
      rw [if_neg hax]
    have haxsub : ∀ c ∈ axes, c ∈ axesAgregation :=
      fun c hc => (List.mem_filter.mp hc).1
    have hA1 : ∀ c ∈ axesAgregation, c ∉ colonnesASupprimer := by decide
    have hA2 : ("Nombre ECBU" : String) ∉ axesAgregation := by decide
    have hA3 : ("Age" : String) ∉ axesAgregation := by decide
    have hA4 : ("Date Prélèvement" : String) ∉ axesAgregation := by decide
    have hA5 : ("Nombre ECBU" : String) ∉ colonnesASupprimer := by decide
    have hforme : ∀ g ∈ gardes, ∃ r₀ ∈ df3.rows,
        g.1 = axes.map (cellule df3.cols r₀) := by
      intro g hg
      exact agreger_forme df3 axes g (List.mem_filter.mp hg).1
    set out := anonymiser kmin df with houtdef
    have hcols : out.cols = axes ++ ["Nombre ECBU"] := by rw [hout]
    have hrows : out.rows = gardes.map (fun g => g.1 ++ [Cellule.n (g.2 : Int)]) := by
      rw [hout]
    have hid1 : supprimerColonnes out colonnesASupprimer = out := by
      apply supprimerColonnes_id
      · intro c hc
        rw [hcols] at hc
        rcases List.mem_append.mp hc with h | h
        · exact hA1 c (haxsub c h)
        · rw [List.mem_singleton.mp h]
          exact hA5
      · intro r hr
        rw [hrows] at hr
        obtain ⟨g, hg, rfl⟩ := List.mem_map.mp hr
        obtain ⟨r₀, _, hf⟩ := hforme g hg
        rw [hcols, hf]
        simp
    have hAgeOut : ("Age" : String) ∉ out.cols := by
      rw [hcols]
      intro h
      rcases List.mem_append.mp h with h | h
      · exact hA3 (haxsub _ h)
      · simp at h
    have hDateOut : ("Date Prélèvement" : String) ∉ out.cols := by
      rw [hcols]
      intro h
      rcases List.mem_append.mp h with h | h
      · exact hA4 (haxsub _ h)
      · simp at h
    have hid2 : etapeAge out = out := etapeAge_id out hAgeOut
    have hid3 : etapeMois out = out := etapeMois_id out hDateOut
    have haxes2 : axesAgregation.filter (fun c => decide (c ∈ out.cols)) = axes := by
      rw [haxes]
      apply List.filter_congr
      intro c hcA
      apply decide_eq_decide.mpr
      rw [hcols]
      constructor
      · intro h
        rcases List.mem_append.mp h with h | h
        · have := (List.mem_filter.mp h).2
          simpa using this
        · exact absurd (List.mem_singleton.mp h ▸ hcA) hA2
      · intro h
        exact List.mem_append.mpr
          (Or.inl (List.mem_filter.mpr ⟨hcA, by simpa using h⟩))
    have hcles2 : out.rows.map (fun r => axes.map (cellule out.cols r))
        = gardes.map Prod.fst := by
      rw [hrows, List.map_map]
      apply List.map_congr_left
      intro g hg
      obtain ⟨r₀, _, hf⟩ := hforme g hg
      show axes.map (cellule out.cols (g.1 ++ [Cellule.n (g.2 : Int)])) = g.1
      rw [hcols, hf]
      exact List.map_congr_left
        (fun a ha => cellule_cle (cellule df3.cols r₀) axes ["Nombre ECBU"]
          [Cellule.n (g.2 : Int)] a ha)
    have hnd : (gardes.map Prod.fst).Nodup := by
      have h1 : (agreger df3 axes).map Prod.fst
          = List.insertionSort (fun a b => cleLe a b = true)
              (df3.rows.map (fun r => axes.map (cellule df3.cols r))).dedup := by
        unfold agreger
        rw [List.map_map]
        exact List.map_id _
      have hsub := (List.filter_sublist (agreger df3 axes)
        (p := fun g => decide (kmin ≤ g.2))).map Prod.fst
      rw [h1] at hsub
      exact List.Nodup.sublist hsub
        ((List.perm_insertionSort _ _).nodup_iff.mpr (List.nodup_dedup _))
    have hcount1 : ∀ p ∈ agreger out axes, p.2 = 1 := by
      intro p hp
      unfold agreger at hp
      obtain ⟨k, hk', rfl⟩ := List.mem_map.mp hp
      have hkmem : k ∈ out.rows.map (fun r => axes.map (cellule out.cols r)) :=
        List.mem_dedup.mp ((List.perm_insertionSort _ _).mem_iff.mp hk')
      show (out.rows.map (fun r => axes.map (cellule out.cols r))).countP
        (fun c => decide (c = k)) = 1
      rw [hcles2]
      exact countP_cle_un hnd (by rwa [hcles2] at hkmem)
    show (anonymiser kmin out).rows = []
    simp only [anonymiser]
    rw [hid1, hid2, hid3, haxes2, if_neg hax]
    show ((agreger out axes).filter (fun g => decide (kmin ≤ g.2))).map
      (fun g => g.1 ++ [Cellule.n (g.2 : Int)]) = []
    rw [List.filter_eq_nil_iff.mpr, List.map_nil]
    intro p hp
    rw [decide_eq_true_eq, hcount1 p hp]
    omega

/-- C3 counterexample: `anonymiser` applied twice differs from
`anonymiser` applied once on a concrete input whose first output is
non-empty. -/
theorem anonymiser_non_idempotent :
    anonymiser 5 (anonymiser 5 dfService5) ≠ anonymiser 5 dfService5 ∧
    anonymiser 5 dfService5 =
      { cols := ["Service", "Nombre ECBU"],
        rows := [[Cellule.s "URO", Cellule.n 5]] } ∧
    anonymiser 5 (anonymiser 5 dfService5) =
      { cols := ["Service", "Nombre ECBU"], rows := [] } :=
  ⟨by decide, by decide, by decide⟩

/-- C3 witness: the amended theorem applied at `kmin = 5` and the
concrete five-record input. -/
theorem anonymiser_deux_fois_vide_temoin :
    2 ≤ 5 ∧ (anonymiser 5 (anonymiser 5 dfService5)).rows = [] :=
  ⟨by decide, anonymiser_deux_fois_vide 5 dfService5 (by decide)⟩

/-- C2 witness: the post-condition theorem applied at `kmin = 5`, the
concrete deny-listed column IPP, and a concrete aggregate table. -/
theorem anonymisation_postcondition_temoin :
    ("IPP" ∈ colonnesInterdites) ∧
    ("IPP" ∉ (anonymiser 5 dfService5).cols) ∧
    ("Nombre ECBU" ∈ dfAggTemoin.cols) ∧
    (verifier_anonymisation 5 dfAggTemoin = true ↔
      ((∀ c ∈ colonnesInterdites, c ∉ dfAggTemoin.cols) ∧
       ∀ r ∈ dfAggTemoin.rows,
         ((5 : ℕ) : Int) ≤ valeurInt (cellule dfAggTemoin.cols r "Nombre ECBU"))) :=
  ⟨by decide, anonymisation_postcondition.1 5 dfService5 "IPP" (by decide), by decide,
   anonymisation_postcondition.2.2 5 dfAggTemoin (by decide)⟩

/-- C5: on every non-empty population and every non-negative critical
value, `taux_non_pertinence` returns a Wilson interval that brackets the
rounded rate, `ci_low ≤ taux ≤ ci_high`, with both bounds in [0, 100]. -/
theorem taux_non_pertinence_wilson (z : ℝ) (decisions : List String)
    (hz : 0 ≤ z) (hne : decisions ≠ []) :
    (taux_non_pertinence z decisions).ci_low ≤ (taux_non_pertinence z decisions).taux ∧
    (taux_non_pertinence z decisions).taux ≤ (taux_non_pertinence z decisions).ci_high ∧
    0 ≤ (taux_non_pertinence z decisions).ci_low ∧
    (taux_non_pertinence z decisions).ci_high ≤ 100 := by
  have htot : decisions.length ≠ 0 := by
    simpa using hne
  have htot' : 0 < decisions.length := Nat.pos_of_ne_zero htot
  have hnb : decisions.countP estNonPertinente ≤ decisions.length :=
    List.countP_le_length _
  obtain ⟨h1, h2, h3, h4⟩ :=
    wilson_encadre z (decisions.countP estNonPertinente) decisions.length
      hz htot' hnb
  simp only [taux_non_pertinence, if_neg htot]
  refine ⟨?_, ?_, ?_, ?_⟩
  · exact arrondi2R_mono (mul_le_mul_of_nonneg_right h1 (by norm_num))
  · exact arrondi2R_mono (mul_le_mul_of_nonneg_right h2 (by norm_num))
  · have hmono := arrondi2R_mono (show (0:ℝ) ≤
        (proportion_confint_wilson z (decisions.countP estNonPertinente)
          decisions.length).1 * 100 by nlinarith)
    rw [arrondi2R_zero] at hmono
    exact hmono
  · have hmono := arrondi2R_mono (show
        (proportion_confint_wilson z (decisions.countP estNonPertinente)
          decisions.length).2 * 100 ≤ 100 by nlinarith)
    rw [arrondi2R_cent] at hmono
    exact hmono

/-- C5 witness: the Wilson bracketing theorem applied to a concrete
one-element population and the concrete critical value 2. -/
theorem taux_non_pertinence_wilson_temoin :
    (0:ℝ) ≤ 2 ∧ (["NÉGATIF : Stérile"] : List String) ≠ [] ∧
    ((taux_non_pertinence 2 ["NÉGATIF : Stérile"]).ci_low
        ≤ (taux_non_pertinence 2 ["NÉGATIF : Stérile"]).taux ∧
      (taux_non_pertinence 2 ["NÉGATIF : Stérile"]).taux
        ≤ (taux_non_pertinence 2 ["NÉGATIF : Stérile"]).ci_high ∧
      0 ≤ (taux_non_pertinence 2 ["NÉGATIF : Stérile"]).ci_low ∧
      (taux_non_pertinence 2 ["NÉGATIF : Stérile"]).ci_high ≤ 100) :=
  ⟨zero_le_two, by decide,
   taux_non_pertinence_wilson 2 ["NÉGATIF : Stérile"] zero_le_two (by decide)⟩

/-- C6: the empty population short-circuits to the all-zero summary
(total 0, count 0, rate 0, interval [0, 0]) with no division. -/
theorem taux_non_pertinence_vide (z : ℝ) :
    taux_non_pertinence z [] = ⟨0, 0, 0, 0, 0⟩ := rfl

/-- C7 counterexample: on two services tied at rate 100, the output order
is SVC_B before SVC_A, so the output is not "sorted by rate descending
with ties broken by service name ascending" as the claim states.  (Two
rows lie far below numpy's 16-element insertion-sort cutoff, the regime
where the model's reversed stable sort is the program's sort exactly.) -/
theorem stats_par_service_egalite_contre :
    (stats_par_service kpiEgalite).map (fun r => r.service) = ["SVC_B", "SVC_A"] ∧
    (stats_par_service kpiEgalite).map (fun r => r.tauxNP) = [100, 100] ∧
    ¬ (stats_par_service kpiEgalite).Pairwise
        (fun a b => b.tauxNP < a.tauxNP ∨
          (a.tauxNP = b.tauxNP ∧ chaineLt a.service b.service = true)) := by
  have hq : arrondi1Q (((1:ℕ):ℚ) / ((1:ℕ):ℚ) * 100) = 100 := by
    push_cast
    norm_num [arrondi1Q, rondePaireQ, Int.fract, round_eq]
  have hA : (ligneService kpiEgalite "SVC_A").tauxNP = 100 := by
    rw [show (ligneService kpiEgalite "SVC_A").tauxNP
        = arrondi1Q (((1:ℕ):ℚ) / ((1:ℕ):ℚ) * 100) from rfl, hq]
  have hB : (ligneService kpiEgalite "SVC_B").tauxNP = 100 := by
    rw [show (ligneService kpiEgalite "SVC_B").tauxNP
        = arrondi1Q (((1:ℕ):ℚ) / ((1:ℕ):ℚ) * 100) from rfl, hq]
  have hsvc : servicesTries kpiEgalite = ["SVC_A", "SVC_B"] := by decide
  have hle : (ligneService kpiEgalite "SVC_A").tauxNP
      ≤ (ligneService kpiEgalite "SVC_B").tauxNP := by rw [hA, hB]
  have hstats : stats_par_service kpiEgalite
      = [ligneService kpiEgalite "SVC_B", ligneService kpiEgalite "SVC_A"] := by
    rw [stats_par_service, hsvc]
    simp only [List.map, List.insertionSort, List.orderedInsert]
    rw [if_pos hle]
    simp
  refine ⟨?_, ?_, ?_⟩
  · rw [hstats]; rfl
  · rw [hstats]; simp [hA, hB]
  · intro h
    rw [hstats] at h
    have hBA := (List.pairwise_cons.mp h).1 (ligneService kpiEgalite "SVC_A")
      (List.mem_cons_self _ _)
    rcases hBA with hlt | ⟨_, hlt⟩
    · rw [hA, hB] at hlt; exact absurd hlt (by norm_num)
    · exact absurd hlt (by decide)

/-- C8: for every input and threshold, `verifier_seuil_np` returns exactly
the per-service groups whose non-pertinence rate reaches the threshold
(projected onto {service, total, nb_np, taux_np}), and on an empty input
it returns the empty list. -/
theorem verifier_seuil_np_exact :
    (∀ (dfs : List LigneKpi) (seuil : ℚ) (a : Alerte),
      a ∈ verifier_seuil_np dfs seuil ↔
        ∃ row ∈ stats_par_service dfs, seuil ≤ row.tauxNP ∧
          a = { service := row.service, total := row.total,
                nb_np := row.nonPertinents, taux_np := row.tauxNP }) ∧
    ∀ seuil : ℚ, verifier_seuil_np [] seuil = [] := by
  constructor
  · intro dfs seuil a
    simp only [verifier_seuil_np, List.mem_map, List.mem_filter, decide_eq_true_eq]
    constructor
    · rintro ⟨row, ⟨hm, hs⟩, rfl⟩
      exact ⟨row, hm, hs, rfl⟩
    · rintro ⟨row, hm, hs, rfl⟩
      exact ⟨row, ⟨hm, hs⟩, rfl⟩
  · intro seuil
    rfl
